import Mathlib

/-!
Shallow embedding of the Shadow Sprint backend (src/main.py, src/schemas.py).

The document store is modelled as in-memory lists of documents, one list per
collection; `find_one` is `List.find?` on the filter predicate, `update_one`
with `$set` replaces fields of the first matching document (inserting the
filter-plus-set document when `upsert=True` and no document matches), and
`insert_one`/`create_document` appends a full model dump.  Responses are
JSON-like association lists; a `none` response models an uncaught exception
(HTTP 500), mirroring e.g. Python's `KeyError` in a dict projection.
`db = none` models the unconfigured-store (degraded) mode of main.py.
-/

set_option maxHeartbeats 1000000

namespace ShadowSprint

/-- schemas.InputSegment: one input segment of a ghost replay. -/
structure Segment where
  start_ms : Int
  end_ms : Int
  kind : String
deriving DecidableEq, Repr

/-- A JSON field value as returned by the endpoints. -/
inductive JVal where
  | s : String → JVal
  | i : Int → JVal
  | b : Bool → JVal
  | segs : List Segment → JVal
  | ints : List Int → JVal
deriving DecidableEq, Repr

/-- A JSON object response: ordered association list of fields (a Python dict). -/
abbrev Resp := List (String × JVal)

/-- Look a key up in a response object. -/
def respGet (r : Resp) (k : String) : Option JVal :=
  (r.find? (fun kv => kv.1 == k)).map (·.2)

/-- A document of the `playersettings` collection.  Fields other than the key
are optional: a document created by `update_one(..., upsert=True)` contains
only the filter key and the `$set` fields, so any of them may be absent. -/
structure SettingsDoc where
  player_id : String
  volume : Option Bool
  vibration : Option Bool
  language : Option String
deriving DecidableEq, Repr

/-- A document of the `ghostrecord` collection.  Documents only enter this
collection through `upsert_ghost`, whose `$set payload.model_dump()` always
writes all four fields, so the fields are total here. -/
structure GhostDoc where
  player_id : String
  level : Int
  time_ms : Int
  inputs : List Segment
deriving DecidableEq, Repr

/-- A document of the `progressrecord` collection; always created from a full
`ProgressRecord` model dump, so both fields are total. -/
structure ProgressDoc where
  player_id : String
  unlocked_upto : Int
deriving DecidableEq, Repr

/-- The document store: one list of documents per collection. -/
structure Store where
  settings : List SettingsDoc
  progress : List ProgressDoc
  ghosts : List GhostDoc
deriving DecidableEq, Repr

def emptyStore : Store := ⟨[], [], []⟩

/-- main.SettingsUpdate request model: all fields optional, `language` is an
unconstrained string (no enum validation on this model). -/
structure SettingsUpdate where
  volume : Option Bool := none
  vibration : Option Bool := none
  language : Option String := none
deriving DecidableEq, Repr

/-- main.GhostUpsert request model: `level` and `time_ms` are plain ints with
no bounds (unlike schemas.GhostRecord, which declares 1 ≤ level ≤ 15 and
time_ms ≥ 0 but is not used to validate this endpoint's payload). -/
structure GhostUpsert where
  player_id : String
  level : Int
  time_ms : Int
  inputs : List Segment
deriving DecidableEq, Repr

/-- main.ProgressUpdate request model. -/
structure ProgressUpdate where
  player_id : String
  won_level : Int
deriving DecidableEq, Repr

def MAX_LEVELS : Int := 15

def statusOk : Resp := [("status", JVal.s "ok")]

/-- `update_one` semantics on a matching document: apply `f` to the first
element satisfying `p`, leave everything else unchanged. -/
def setFirst {α : Type} (p : α → Bool) (f : α → α) : List α → List α
  | [] => []
  | x :: xs => if p x then f x :: xs else x :: setFirst p f xs

/-- Projection `{k: doc[k] for k in ["player_id","volume","vibration","language"]}`:
`none` models the `KeyError` raised when a field is absent from the document. -/
def settingsProject (d : SettingsDoc) : Option Resp :=
  match d.volume, d.vibration, d.language with
  | some v, some vb, some l =>
      some [("player_id", JVal.s d.player_id), ("volume", JVal.b v),
            ("vibration", JVal.b vb), ("language", JVal.s l)]
  | _, _, _ => none

/-- `$set` of the non-None payload fields onto an existing settings document. -/
def applySet (p : SettingsUpdate) (d : SettingsDoc) : SettingsDoc :=
  { d with
    volume := match p.volume with | some v => some v | none => d.volume
    vibration := match p.vibration with | some v => some v | none => d.vibration
    language := match p.language with | some v => some v | none => d.language }

/-- GET /api/settings/{player_id} (main.get_settings). -/
def get_settings : Option Store → String → Option Resp × Option Store
  | none, _ =>
      (some [("volume", JVal.b true), ("vibration", JVal.b true), ("language", JVal.s "es")],
       none)
  | some st, player_id =>
      match st.settings.find? (fun d => d.player_id == player_id) with
      | none =>
          (some [("player_id", JVal.s player_id), ("volume", JVal.b true),
                 ("vibration", JVal.b true), ("language", JVal.s "es")],
           some { st with settings := st.settings ++ [⟨player_id, some true, some true, some "es"⟩] })
      | some doc => (settingsProject doc, some st)

/-- POST /api/settings/{player_id} (main.update_settings): merge-upsert of the
non-None payload fields, then re-read and project the document. -/
def update_settings : Option Store → String → SettingsUpdate → Option Resp × Option Store
  | none, player_id, payload =>
      (some [("player_id", JVal.s player_id),
             ("volume", JVal.b (payload.volume.getD true)),
             ("vibration", JVal.b (payload.vibration.getD true)),
             ("language", JVal.s (payload.language.getD "es"))],
       none)
  | some st, player_id, payload =>
      let settings' :=
        match st.settings.find? (fun d => d.player_id == player_id) with
        | none => st.settings ++ [⟨player_id, payload.volume, payload.vibration, payload.language⟩]
        | some _ => setFirst (fun d => d.player_id == player_id) (applySet payload) st.settings
      let st' : Store := { st with settings := settings' }
      match settings'.find? (fun d => d.player_id == player_id) with
      | none => (none, some st')
      | some doc => (settingsProject doc, some st')

/-- GET /api/levels (main.get_levels): `list(range(1, MAX_LEVELS + 1))`. -/
def get_levels (db : Option Store) : Option Resp × Option Store :=
  (some [("levels", JVal.ints ((List.range 15).map (fun i => (i : Int) + 1)))], db)

/-- GET /api/progress/{player_id} (main.get_progress). -/
def get_progress : Option Store → String → Option Resp × Option Store
  | none, player_id =>
      (some [("player_id", JVal.s player_id), ("unlocked_upto", JVal.i 1)], none)
  | some st, player_id =>
      match st.progress.find? (fun d => d.player_id == player_id) with
      | none =>
          (some [("player_id", JVal.s player_id), ("unlocked_upto", JVal.i 1)],
           some { st with progress := st.progress ++ [⟨player_id, 1⟩] })
      | some doc =>
          (some [("player_id", JVal.s doc.player_id), ("unlocked_upto", JVal.i doc.unlocked_upto)],
           some st)

/-- Store part of POST /api/progress/unlock when the store is configured:
read (creating the default record first if absent), then conditionally write. -/
def unlockG (st : Store) (pu : ProgressUpdate) : Store :=
  let createdSt : Store :=
    match st.progress.find? (fun d => d.player_id == pu.player_id) with
    | none => { st with progress := st.progress ++ [⟨pu.player_id, 1⟩] }
    | some _ => st
  let unlocked : Int :=
    ((createdSt.progress.find? (fun d => d.player_id == pu.player_id)).map
      (fun r => r.unlocked_upto)).getD 1
  if pu.won_level ≥ unlocked then
    let written := setFirst (fun d => d.player_id == pu.player_id)
      (fun d => { d with unlocked_upto := pu.won_level + 1 }) createdSt.progress
    { createdSt with progress := written }
  else createdSt

/-- The in-range branch of POST /api/progress/unlock: degraded no-op when the
store is unconfigured, otherwise the read-create-compare-write of unlockG. -/
def unlockDb : Option Store → ProgressUpdate → Option Resp × Option Store
  | none, _ => (some statusOk, none)
  | some st, pu => (some statusOk, some (unlockG st pu))

/-- POST /api/progress/unlock (main.unlock_next). -/
def unlock_next (db : Option Store) (pu : ProgressUpdate) : Option Resp × Option Store :=
  if pu.won_level < 1 ∨ pu.won_level ≥ MAX_LEVELS then (some statusOk, db)
  else unlockDb db pu

/-- The generic fallback ghost of main.get_ghost: taps every 700 ms, 120 ms long. -/
def genericGhost (player_id : String) (level : Int) : Resp :=
  [("player_id", JVal.s player_id), ("level", JVal.i level), ("time_ms", JVal.i 8000),
   ("inputs", JVal.segs ((List.range 10).map (fun i => ⟨(i : Int) * 700, (i : Int) * 700 + 120, "tap"⟩)))]

/-- GET /api/ghost/{player_id}/{level} (main.get_ghost). -/
def get_ghost : Option Store → String → Int → Option Resp × Option Store
  | none, player_id, level => (some (genericGhost player_id level), none)
  | some st, player_id, level =>
      match st.ghosts.find? (fun d => d.player_id == player_id && d.level == level) with
      | none => (some (genericGhost player_id level), some st)
      | some doc =>
          (some [("player_id", JVal.s doc.player_id), ("level", JVal.i doc.level),
                 ("time_ms", JVal.i doc.time_ms), ("inputs", JVal.segs doc.inputs)],
           some st)

/-- Store part of POST /api/ghost when the store is configured: best-time-wins
conditional `$set`-upsert of the full payload. -/
def upsertG (st : Store) (p : GhostUpsert) : Store :=
  match st.ghosts.find? (fun d => d.player_id == p.player_id && d.level == p.level) with
  | none =>
      { st with ghosts := st.ghosts ++ [⟨p.player_id, p.level, p.time_ms, p.inputs⟩] }
  | some existing =>
      if p.time_ms < existing.time_ms then
        let replaced := setFirst (fun d => d.player_id == p.player_id && d.level == p.level)
          (fun _ => ⟨p.player_id, p.level, p.time_ms, p.inputs⟩) st.ghosts
        { st with ghosts := replaced }
      else st

/-- POST /api/ghost (main.upsert_ghost). -/
def upsert_ghost : Option Store → GhostUpsert → Option Resp × Option Store
  | none, _ => (some statusOk, none)
  | some st, p => (some statusOk, some (upsertG st p))

/-- `avg = sum(t.get("time_ms", 0) for t in times) / max(1, len(times))` of
main.classification: Python true division, taken in ℚ. -/
def avgTime (times : List GhostDoc) : ℚ :=
  ((times.map (fun d => d.time_ms)).sum : ℤ) / (max 1 times.length : ℚ)

/-- The threshold cascade of main.classification. -/
def classifyTier (avg : ℚ) : String :=
  if avg < 5500 then "Gold" else if avg < 7500 then "Silver" else "Bronze"

/-- GET /api/classification/{player_id} (main.classification). -/
def classification : Option Store → String → Option Resp × Option Store
  | none, _ => (some [("tier", JVal.s "Bronze")], none)
  | some st, player_id =>
      if (st.ghosts.filter (fun d => d.player_id == player_id)).isEmpty then
        (some [("tier", JVal.s "Bronze")], some st)
      else
        (some [("tier", JVal.s
          (classifyTier (avgTime (st.ghosts.filter (fun d => d.player_id == player_id)))))],
         some st)

/-- One API call: the eight routed endpoints of main.py. -/
inductive Op where
  | getSettings (player_id : String)
  | updateSettings (player_id : String) (payload : SettingsUpdate)
  | getLevels
  | getProgress (player_id : String)
  | unlockNext (pu : ProgressUpdate)
  | getGhost (player_id : String) (level : Int)
  | upsertGhost (p : GhostUpsert)
  | classify (player_id : String)
deriving DecidableEq, Repr

/-- Dispatch one API call against the (possibly unconfigured) store. -/
def runOp (db : Option Store) : Op → Option Resp × Option Store
  | .getSettings pid => get_settings db pid
  | .updateSettings pid payload => update_settings db pid payload
  | .getLevels => get_levels db
  | .getProgress pid => get_progress db pid
  | .unlockNext pu => unlock_next db pu
  | .getGhost pid lvl => get_ghost db pid lvl
  | .upsertGhost p => upsert_ghost db p
  | .classify pid => classification db pid

/-- Run a sequence of API calls, keeping only the store evolution. -/
def runOps (db : Option Store) (ops : List Op) : Option Store :=
  ops.foldl (fun d op => (runOp d op).2) db

/-- The stored ghost record for a (player_id, level) key, if any. -/
def ghostFor (st : Store) (pid : String) (lvl : Int) : Option GhostDoc :=
  st.ghosts.find? (fun d => d.player_id == pid && d.level == lvl)

/-- The stored progress value for a player, if any. -/
def progressValue (st : Store) (pid : String) : Option Int :=
  (st.progress.find? (fun d => d.player_id == pid)).map (·.unlocked_upto)

/-- The ghost document written by a successful upsert: the full model dump of
the payload. -/
def payloadDoc (p : GhostUpsert) : GhostDoc :=
  ⟨p.player_id, p.level, p.time_ms, p.inputs⟩

/-- schemas.ProgressRecord's declared bounds: `unlocked_upto` in [1, 15]. -/
def ProgressWF (st : Store) : Prop :=
  ∀ d ∈ st.progress, 1 ≤ d.unlocked_upto ∧ d.unlocked_upto ≤ 15

instance (st : Store) : Decidable (ProgressWF st) := by
  unfold ProgressWF; infer_instance

/-- Every player's stored progress value in `st` is still stored in `st'`,
with a value at least as large. -/
def ProgMono (st st' : Store) : Prop :=
  ∀ pid u, progressValue st pid = some u →
    ∃ u', progressValue st' pid = some u' ∧ u ≤ u'

/-- Stated from the spec's words, for comparison with the code's `avgTime`:
the arithmetic mean of time_ms across the player's stored ghost records
(meaningful when at least one record exists). -/
def specMean (st : Store) (pid : String) : ℚ :=
  ((st.ghosts.filter (fun d => d.player_id == pid)).map (fun d => (d.time_ms : ℚ))).sum /
    ((st.ghosts.filter (fun d => d.player_id == pid)).length : ℚ)

/- ------------------------------------------------------------------ -/
/- Generic list lemmas for `find?` and `setFirst`.                     -/
/- ------------------------------------------------------------------ -/

lemma find?_append_some {α : Type} {p : α → Bool} {xs : List α} (ys : List α) {a : α}
    (h : xs.find? p = some a) : (xs ++ ys).find? p = some a := by
  rw [List.find?_append, h]; rfl

lemma find?_append_none {α : Type} {p : α → Bool} {xs : List α} (ys : List α)
    (h : xs.find? p = none) : (xs ++ ys).find? p = ys.find? p := by
  rw [List.find?_append, h]; rfl

lemma find?_setFirst_self {α : Type} {p : α → Bool} {f : α → α} {xs : List α} {e : α}
    (hfind : xs.find? p = some e) (hpf : p (f e) = true) :
    (setFirst p f xs).find? p = some (f e) := by
  induction xs with
  | nil => simp at hfind
  | cons x xs ih =>
    by_cases hx : p x = true
    · rw [List.find?_cons_of_pos _ hx] at hfind
      obtain rfl : x = e := by injection hfind
      simp [setFirst, hx, List.find?_cons_of_pos _ hpf]
    · rw [List.find?_cons_of_neg _ hx] at hfind
      rw [setFirst, if_neg hx, List.find?_cons_of_neg _ hx]
      exact ih hfind

lemma find?_setFirst_congr {α : Type} {p q : α → Bool} {f : α → α} (xs : List α)
    (hqf : ∀ x, q (f x) = q x) (hpq : ∀ x, p x = true → q x = false) :
    (setFirst p f xs).find? q = xs.find? q := by
  induction xs with
  | nil => rfl
  | cons x xs ih =>
    by_cases hx : p x = true
    · have hqx : q x = false := hpq x hx
      rw [setFirst, if_pos hx,
        List.find?_cons_of_neg _ (by rw [hqf x, hqx]; exact Bool.false_ne_true),
        List.find?_cons_of_neg _ (by rw [hqx]; exact Bool.false_ne_true)]
    · rw [setFirst, if_neg hx]
      by_cases hq : q x = true
      · rw [List.find?_cons_of_pos _ hq, List.find?_cons_of_pos _ hq]
      · rw [List.find?_cons_of_neg _ hq, List.find?_cons_of_neg _ hq]
        exact ih

lemma mem_setFirst {α : Type} {p : α → Bool} {f : α → α} {xs : List α} {a : α}
    (h : a ∈ setFirst p f xs) : a ∈ xs ∨ ∃ x ∈ xs, p x = true ∧ a = f x := by
  induction xs with
  | nil => simp [setFirst] at h
  | cons x xs ih =>
    by_cases hx : p x = true
    · rw [setFirst, if_pos hx] at h
      rcases List.mem_cons.mp h with rfl | h'
      · exact Or.inr ⟨x, List.mem_cons_self x xs, hx, rfl⟩
      · exact Or.inl (List.mem_cons_of_mem _ h')
    · rw [setFirst, if_neg hx] at h
      rcases List.mem_cons.mp h with rfl | h'
      · exact Or.inl (List.mem_cons_self _ _)
      · rcases ih h' with h'' | ⟨y, hy, hpy, hay⟩
        · exact Or.inl (List.mem_cons_of_mem _ h'')
        · exact Or.inr ⟨y, List.mem_cons_of_mem _ hy, hpy, hay⟩

/- ------------------------------------------------------------------ -/
/- `foldl min` lemmas.                                                 -/
/- ------------------------------------------------------------------ -/

lemma foldl_min_le_init (a : Int) (ts : List Int) : ts.foldl min a ≤ a := by
  induction ts generalizing a with
  | nil => exact le_refl a
  | cons t ts ih => exact le_trans (ih (min a t)) (min_le_left a t)

lemma foldl_min_le_mem (t : Int) (ts : List Int) :
    ∀ (a : Int), t ∈ ts → ts.foldl min a ≤ t := by
  induction ts with
  | nil => intro a h; cases h
  | cons s ts ih =>
    intro a h
    rcases List.mem_cons.mp h with rfl | h'
    · exact le_trans (foldl_min_le_init (min a t) ts) (min_le_right a t)
    · exact ih (min a s) h'

lemma foldl_min_mem (a : Int) (ts : List Int) :
    ts.foldl min a = a ∨ ts.foldl min a ∈ ts := by
  induction ts generalizing a with
  | nil => exact Or.inl rfl
  | cons t ts ih =>
    rcases ih (min a t) with h | h
    · rcases le_total a t with hle | hle
      · exact Or.inl (by show ts.foldl min (min a t) = a; rw [h, min_eq_left hle])
      · refine Or.inr ?_
        show ts.foldl min (min a t) ∈ t :: ts
        rw [h, min_eq_right hle]
        exact List.mem_cons_self t ts
    · refine Or.inr (List.mem_cons_of_mem t ?_)
      show ts.foldl min (min a t) ∈ ts
      exact h

/- ------------------------------------------------------------------ -/
/- Ghost upsert lemmas.                                                -/
/- ------------------------------------------------------------------ -/

lemma upsertG_of_none {st : Store} {p : GhostUpsert}
    (h : ghostFor st p.player_id p.level = none) :
    upsertG st p = { st with ghosts := st.ghosts ++ [payloadDoc p] } := by
  unfold ghostFor at h
  simp only [upsertG, h]
  rfl

lemma ghostFor_upsertG_of_none {st : Store} {p : GhostUpsert}
    (h : ghostFor st p.player_id p.level = none) :
    ghostFor (upsertG st p) p.player_id p.level = some (payloadDoc p) := by
  rw [upsertG_of_none h]
  unfold ghostFor at h ⊢
  rw [find?_append_none _ h]
  simp [payloadDoc]

lemma ghostFor_upsertG_of_better {st : Store} {p : GhostUpsert} {e : GhostDoc}
    (h : ghostFor st p.player_id p.level = some e) (ht : p.time_ms < e.time_ms) :
    ghostFor (upsertG st p) p.player_id p.level = some (payloadDoc p) := by
  unfold ghostFor at h
  simp only [upsertG, h, if_pos ht]
  unfold ghostFor
  exact find?_setFirst_self h (by simp [payloadDoc])

lemma upsertG_of_not_better {st : Store} {p : GhostUpsert} {e : GhostDoc}
    (h : ghostFor st p.player_id p.level = some e) (ht : ¬ p.time_ms < e.time_ms) :
    upsertG st p = st := by
  unfold ghostFor at h
  simp only [upsertG, h, if_neg ht]

lemma foldl_upsertG_time {pid : String} {lvl : Int} (qs : List GhostUpsert)
    (hqs : ∀ q ∈ qs, q.player_id = pid ∧ q.level = lvl) :
    ∀ (st : Store) (d : GhostDoc), ghostFor st pid lvl = some d →
    ∃ d', ghostFor (qs.foldl upsertG st) pid lvl = some d' ∧
      d'.time_ms = qs.foldl (fun a q => min a q.time_ms) d.time_ms := by
  induction qs with
  | nil => exact fun st d hd => ⟨d, hd, rfl⟩
  | cons q qs ih =>
    intro st d hd
    obtain ⟨hq1, hq2⟩ := hqs q (List.mem_cons_self _ _)
    have hrest : ∀ r ∈ qs, r.player_id = pid ∧ r.level = lvl :=
      fun r hr => hqs r (List.mem_cons_of_mem _ hr)
    by_cases ht : q.time_ms < d.time_ms
    · have h1 : ghostFor (upsertG st q) pid lvl = some (payloadDoc q) := by
        rw [← hq1, ← hq2]
        exact ghostFor_upsertG_of_better (by rw [hq1, hq2]; exact hd) ht
      obtain ⟨d', hd', htime⟩ := ih hrest (upsertG st q) _ h1
      refine ⟨d', hd', ?_⟩
      rw [htime]
      show _ = qs.foldl _ (min d.time_ms q.time_ms)
      congr 1
      show q.time_ms = min d.time_ms q.time_ms
      omega
    · have h1 : upsertG st q = st :=
        upsertG_of_not_better (by rw [hq1, hq2]; exact hd) ht
      obtain ⟨d', hd', htime⟩ := ih hrest st d hd
      refine ⟨d', ?_, ?_⟩
      · show ghostFor (qs.foldl upsertG (upsertG st q)) pid lvl = some d'
        rw [h1]
        exact hd'
      · rw [htime]
        show _ = qs.foldl _ (min d.time_ms q.time_ms)
        congr 1
        omega

lemma runOps_upsertGhost (ps : List GhostUpsert) :
    ∀ st : Store, runOps (some st) (ps.map Op.upsertGhost) = some (ps.foldl upsertG st) := by
  induction ps with
  | nil => exact fun st => rfl
  | cons p ps ih => exact fun st => ih (upsertG st p)

/-- C1: best-time-wins upsert.  For a fixed (player_id, level) key a submitted
record is stored — replacing any existing record — exactly when no record
exists for the key or the submitted time_ms is strictly smaller than the
stored one; otherwise the store is left unchanged.  Consequently, after any
non-empty sequence of upserts for a fixed key starting with no record for it,
the stored time_ms is the minimum time_ms ever submitted in the sequence. -/
theorem C1_ghost_best_time_wins
    (st st₀ : Store) (pid : String) (lvl : Int) (p : GhostUpsert)
    (hp : p.player_id = pid ∧ p.level = lvl)
    (ps : List GhostUpsert) (hps : ∀ q ∈ ps, q.player_id = pid ∧ q.level = lvl)
    (hne : ps ≠ []) (hnone : ghostFor st pid lvl = none) :
    (upsert_ghost (some st₀) p = (some statusOk, some (upsertG st₀ p)) ∧
     (ghostFor st₀ pid lvl = none →
       ghostFor (upsertG st₀ p) pid lvl = some (payloadDoc p)) ∧
     (∀ e, ghostFor st₀ pid lvl = some e → p.time_ms < e.time_ms →
       ghostFor (upsertG st₀ p) pid lvl = some (payloadDoc p)) ∧
     (∀ e, ghostFor st₀ pid lvl = some e → ¬ p.time_ms < e.time_ms →
       upsertG st₀ p = st₀)) ∧
    ∃ st' d, runOps (some st) (ps.map Op.upsertGhost) = some st' ∧
      ghostFor st' pid lvl = some d ∧
      d.time_ms ∈ ps.map (fun q => q.time_ms) ∧
      ∀ t ∈ ps.map (fun q => q.time_ms), d.time_ms ≤ t := by
  obtain ⟨hp1, hp2⟩ := hp
  constructor
  · refine ⟨rfl, ?_, ?_, ?_⟩
    · intro h0
      rw [← hp1, ← hp2] at h0 ⊢
      exact ghostFor_upsertG_of_none h0
    · intro e h0 ht
      rw [← hp1, ← hp2] at h0 ⊢
      exact ghostFor_upsertG_of_better h0 ht
    · intro e h0 ht
      rw [← hp1, ← hp2] at h0
      exact upsertG_of_not_better h0 ht
  · cases ps with
    | nil => exact absurd rfl hne
    | cons q qs =>
      obtain ⟨hq1, hq2⟩ := hps q (List.mem_cons_self _ _)
      have h1 : ghostFor (upsertG st q) pid lvl = some (payloadDoc q) := by
        rw [← hq1, ← hq2] at hnone ⊢
        exact ghostFor_upsertG_of_none hnone
      obtain ⟨d, hd, htime⟩ := foldl_upsertG_time qs
        (fun r hr => hps r (List.mem_cons_of_mem _ hr)) (upsertG st q) _ h1
      have hfold : d.time_ms = (qs.map (fun r => r.time_ms)).foldl min q.time_ms := by
        rw [htime, List.foldl_map]
        rfl
      have hmem : d.time_ms ∈ (q :: qs).map (fun r => r.time_ms) := by
        rw [List.map_cons, hfold]
        rcases foldl_min_mem q.time_ms (qs.map (fun r => r.time_ms)) with hm | hm
        · rw [hm]; exact List.mem_cons_self _ _
        · exact List.mem_cons_of_mem _ hm
      have hlb : ∀ t ∈ (q :: qs).map (fun r => r.time_ms), d.time_ms ≤ t := by
        intro t htm
        rw [List.map_cons] at htm
        rcases List.mem_cons.mp htm with rfl | htm'
        · rw [hfold]; exact foldl_min_le_init _ _
        · rw [hfold]; exact foldl_min_le_mem _ _ _ htm'
      exact ⟨(q :: qs).foldl upsertG st, d, runOps_upsertGhost _ st, hd, hmem, hlb⟩

/-- Witness for C1 at the spec's §8 scenario: submissions 9000, 7000, 7500
for key (p1, 3) leave a stored record whose time is a submitted time that is
a lower bound of all submitted times. -/
theorem C1_ghost_best_time_wins_witness :
    ∃ st' d, runOps (some emptyStore)
        ([⟨"p1", 3, 9000, []⟩, ⟨"p1", 3, 7000, []⟩, ⟨"p1", 3, 7500, []⟩].map Op.upsertGhost)
        = some st' ∧
      ghostFor st' "p1" 3 = some d ∧
      d.time_ms ∈ [(9000 : Int), 7000, 7500] ∧
      ∀ t ∈ [(9000 : Int), 7000, 7500], d.time_ms ≤ t := by
  have h := (C1_ghost_best_time_wins emptyStore emptyStore "p1" 3 ⟨"p1", 3, 9000, []⟩
      ⟨rfl, rfl⟩ [⟨"p1", 3, 9000, []⟩, ⟨"p1", 3, 7000, []⟩, ⟨"p1", 3, 7500, []⟩]
      (by decide) (by decide) rfl).2
  simpa using h

/- ------------------------------------------------------------------ -/
/- Progress unlock lemmas.                                             -/
/- ------------------------------------------------------------------ -/

lemma unlockG_progressValue_self (st : Store) (pu : ProgressUpdate)
    (h1 : 1 ≤ pu.won_level) :
    progressValue (unlockG st pu) pu.player_id =
      some (max ((progressValue st pu.player_id).getD 1) (pu.won_level + 1)) := by
  cases hfind : st.progress.find? (fun d => d.player_id == pu.player_id) with
  | none =>
      have hfind2 : (st.progress ++ [(⟨pu.player_id, 1⟩ : ProgressDoc)]).find?
          (fun d => d.player_id == pu.player_id) = some ⟨pu.player_id, 1⟩ := by
        rw [find?_append_none _ hfind]
        simp [List.find?]
      have hset : (setFirst (fun d => d.player_id == pu.player_id)
            (fun d => { d with unlocked_upto := pu.won_level + 1 })
            (st.progress ++ [(⟨pu.player_id, 1⟩ : ProgressDoc)])).find?
            (fun d => d.player_id == pu.player_id)
          = some ⟨pu.player_id, pu.won_level + 1⟩ :=
        find?_setFirst_self hfind2 (by simp)
      unfold progressValue
      simp only [unlockG, hfind, hfind2, Option.map_some', Option.getD_some,
        ge_iff_le, if_pos h1, hset, Option.map_none', Option.getD_none]
      congr 1
      omega
  | some r =>
      unfold progressValue
      simp only [unlockG, hfind, Option.map_some', Option.getD_some, ge_iff_le]
      by_cases hguard : r.unlocked_upto ≤ pu.won_level
      · have hset : (setFirst (fun d => d.player_id == pu.player_id)
              (fun d => { d with unlocked_upto := pu.won_level + 1 }) st.progress).find?
              (fun d => d.player_id == pu.player_id)
            = some { r with unlocked_upto := pu.won_level + 1 } :=
          find?_setFirst_self hfind (by simpa using List.find?_some hfind)
        rw [if_pos hguard]
        simp only [hset, Option.map_some']
        congr 1
        omega
      · rw [if_neg hguard]
        rw [hfind]
        simp only [Option.map_some']
        congr 1
        omega

lemma unlockG_of_stale (st : Store) (pu : ProgressUpdate) {r : ProgressDoc}
    (hfind : st.progress.find? (fun d => d.player_id == pu.player_id) = some r)
    (hw : pu.won_level < r.unlocked_upto) :
    unlockG st pu = st := by
  simp only [unlockG, hfind, Option.map_some', Option.getD_some, ge_iff_le,
    if_neg (by omega : ¬ r.unlocked_upto ≤ pu.won_level)]

lemma unlockG_progressValue_other (st : Store) (pu : ProgressUpdate) (pid : String)
    (hne : pid ≠ pu.player_id) :
    progressValue (unlockG st pu) pid = progressValue st pid := by
  have hb : (pu.player_id == pid) = false := by
    rw [beq_eq_false_iff_ne]
    exact Ne.symm hne
  have hqf : ∀ d : ProgressDoc,
      (({ d with unlocked_upto := pu.won_level + 1 } : ProgressDoc).player_id == pid)
        = (d.player_id == pid) := fun d => rfl
  have hpq : ∀ d : ProgressDoc, (d.player_id == pu.player_id) = true →
      (d.player_id == pid) = false := by
    intro d hd
    have hdp : d.player_id = pu.player_id := by simpa using hd
    rw [hdp, hb]
  have hsingle : ([(⟨pu.player_id, 1⟩ : ProgressDoc)]).find?
      (fun d => d.player_id == pid) = none := by
    rw [List.find?_cons_of_neg _ (by simp [hb])]
    rfl
  have happ : (st.progress ++ [(⟨pu.player_id, 1⟩ : ProgressDoc)]).find?
      (fun d => d.player_id == pid) = st.progress.find? (fun d => d.player_id == pid) := by
    rw [List.find?_append, hsingle]
    cases st.progress.find? (fun d => d.player_id == pid) <;> rfl
  unfold progressValue
  cases hfind : st.progress.find? (fun d => d.player_id == pu.player_id) with
  | none =>
      simp only [unlockG, hfind, ge_iff_le]
      split
      · rw [find?_setFirst_congr _ hqf hpq, happ]
      · rw [happ]
  | some r =>
      simp only [unlockG, hfind, Option.map_some', Option.getD_some, ge_iff_le]
      split
      · rw [find?_setFirst_congr _ hqf hpq]
      · rfl

lemma unlockG_wf (st : Store) (pu : ProgressUpdate) (hwf : ProgressWF st)
    (h1 : 1 ≤ pu.won_level) (h14 : pu.won_level ≤ 14) :
    ProgressWF (unlockG st pu) := by
  have hcreated : ∀ d ∈ (st.progress ++ [(⟨pu.player_id, 1⟩ : ProgressDoc)]),
      1 ≤ d.unlocked_upto ∧ d.unlocked_upto ≤ 15 := by
    intro d hd
    rcases List.mem_append.mp hd with h | h
    · exact hwf d h
    · rw [List.mem_singleton.mp h]
      exact ⟨le_refl 1, by show (1 : Int) ≤ 15; omega⟩
  intro d hd
  cases hfind : st.progress.find? (fun d => d.player_id == pu.player_id) with
  | none =>
      simp only [unlockG, hfind, ge_iff_le] at hd
      split at hd
      · rcases mem_setFirst hd with h | ⟨x, _, _, rfl⟩
        · exact hcreated d h
        · exact ⟨by show (1 : Int) ≤ pu.won_level + 1; omega,
            by show pu.won_level + 1 ≤ 15; omega⟩
      · exact hcreated d hd
  | some r =>
      simp only [unlockG, hfind, Option.map_some', Option.getD_some, ge_iff_le] at hd
      split at hd
      · rcases mem_setFirst hd with h | ⟨x, _, _, rfl⟩
        · exact hwf d h
        · exact ⟨by show (1 : Int) ≤ pu.won_level + 1; omega,
            by show pu.won_level + 1 ≤ 15; omega⟩
      · exact hwf d hd

lemma progMono_rfl (st : Store) : ProgMono st st :=
  fun _ u hu => ⟨u, hu, le_refl u⟩

lemma progMono_trans {s t v : Store} (h1 : ProgMono s t) (h2 : ProgMono t v) :
    ProgMono s v := by
  intro pid u hu
  obtain ⟨u', hu', hle1⟩ := h1 pid u hu
  obtain ⟨u'', hu'', hle2⟩ := h2 pid u' hu'
  exact ⟨u'', hu'', le_trans hle1 hle2⟩

lemma progMono_of_progress_eq {st st' : Store} (h : st'.progress = st.progress) :
    ProgMono st st' := by
  intro pid u hu
  unfold progressValue at hu ⊢
  rw [h]
  exact ⟨u, hu, le_refl u⟩

lemma wf_of_progress_eq {st st' : Store} (h : st'.progress = st.progress)
    (hwf : ProgressWF st) : ProgressWF st' := by
  intro d hd
  rw [h] at hd
  exact hwf d hd

lemma progMono_append (st : Store) (l : List ProgressDoc) :
    ProgMono st { st with progress := st.progress ++ l } := by
  intro pid u hu
  unfold progressValue at hu ⊢
  cases hfind : st.progress.find? (fun d => d.player_id == pid) with
  | none => rw [hfind] at hu; cases hu
  | some r =>
      rw [hfind] at hu
      refine ⟨u, ?_, le_refl u⟩
      show ((st.progress ++ l).find? (fun d => d.player_id == pid)).map
        (fun d => d.unlocked_upto) = some u
      rw [find?_append_some l hfind]
      exact hu

lemma wf_append_default (st : Store) (pid : String) (hwf : ProgressWF st) :
    ProgressWF { st with progress := st.progress ++ [⟨pid, 1⟩] } := by
  intro d hd
  rcases List.mem_append.mp hd with h | h
  · exact hwf d h
  · rw [List.mem_singleton.mp h]
    exact ⟨le_refl 1, by show (1 : Int) ≤ 15; omega⟩

lemma unlockG_mono (st : Store) (pu : ProgressUpdate) (h1 : 1 ≤ pu.won_level) :
    ProgMono st (unlockG st pu) := by
  intro pid u hu
  by_cases hpid : pid = pu.player_id
  · subst hpid
    rw [unlockG_progressValue_self st pu h1]
    refine ⟨_, rfl, ?_⟩
    rw [hu]
    simp only [Option.getD_some]
    exact le_max_left _ _
  · rw [unlockG_progressValue_other st pu pid hpid]
    exact ⟨u, hu, le_refl u⟩

/- ------------------------------------------------------------------ -/
/- The store part of each endpoint leaves other collections alone.     -/
/- ------------------------------------------------------------------ -/

lemma get_settings_progress (st : Store) (pid : String) :
    ∃ st', (get_settings (some st) pid).2 = some st' ∧ st'.progress = st.progress := by
  cases hfind : st.settings.find? (fun d => d.player_id == pid) with
  | none =>
      refine ⟨{ st with settings := st.settings ++ [⟨pid, some true, some true, some "es"⟩] },
        ?_, rfl⟩
      simp only [get_settings, hfind]
  | some doc =>
      refine ⟨st, ?_, rfl⟩
      simp only [get_settings, hfind]

lemma update_settings_progress (st : Store) (pid : String) (payload : SettingsUpdate) :
    ∃ st', (update_settings (some st) pid payload).2 = some st' ∧
      st'.progress = st.progress := by
  cases hfind : st.settings.find? (fun d => d.player_id == pid) with
  | none =>
      refine ⟨{ st with settings := (st.settings ++
        [⟨pid, payload.volume, payload.vibration, payload.language⟩]) }, ?_, rfl⟩
      simp only [update_settings, hfind]
      split <;> rfl
  | some doc0 =>
      refine ⟨{ st with settings := (setFirst (fun d => d.player_id == pid)
        (applySet payload) st.settings) }, ?_, rfl⟩
      simp only [update_settings, hfind]
      split <;> rfl

lemma get_ghost_store (st : Store) (pid : String) (lvl : Int) :
    (get_ghost (some st) pid lvl).2 = some st := by
  cases hfind : st.ghosts.find? (fun d => d.player_id == pid && d.level == lvl) with
  | none => simp only [get_ghost, hfind]
  | some doc => simp only [get_ghost, hfind]

lemma classification_store (st : Store) (pid : String) :
    (classification (some st) pid).2 = some st := by
  simp only [classification]
  split <;> rfl

lemma upsertG_progress (st : Store) (p : GhostUpsert) :
    (upsertG st p).progress = st.progress := by
  unfold upsertG
  split
  · rfl
  · split <;> rfl

lemma runOp_step (st : Store) (op : Op) (hwf : ProgressWF st) :
    ∃ st', (runOp (some st) op).2 = some st' ∧ ProgressWF st' ∧ ProgMono st st' := by
  cases op with
  | getSettings pid =>
      obtain ⟨st', h2, hp⟩ := get_settings_progress st pid
      exact ⟨st', h2, wf_of_progress_eq hp hwf, progMono_of_progress_eq hp⟩
  | updateSettings pid payload =>
      obtain ⟨st', h2, hp⟩ := update_settings_progress st pid payload
      exact ⟨st', h2, wf_of_progress_eq hp hwf, progMono_of_progress_eq hp⟩
  | getLevels => exact ⟨st, rfl, hwf, progMono_rfl st⟩
  | getProgress pid =>
      cases hfind : st.progress.find? (fun d => d.player_id == pid) with
      | none =>
          refine ⟨{ st with progress := st.progress ++ [⟨pid, 1⟩] }, ?_,
            wf_append_default st pid hwf, progMono_append st [⟨pid, 1⟩]⟩
          show (get_progress (some st) pid).2 = _
          simp only [get_progress, hfind]
      | some doc =>
          refine ⟨st, ?_, hwf, progMono_rfl st⟩
          show (get_progress (some st) pid).2 = some st
          simp only [get_progress, hfind]
  | unlockNext pu =>
      show ∃ st', (unlock_next (some st) pu).2 = some st' ∧ _
      unfold unlock_next
      split
      · exact ⟨st, rfl, hwf, progMono_rfl st⟩
      · next hrange =>
          have h1 : 1 ≤ pu.won_level := by
            unfold MAX_LEVELS at hrange
            omega
          have h14 : pu.won_level ≤ 14 := by
            unfold MAX_LEVELS at hrange
            omega
          refine ⟨unlockG st pu, ?_, unlockG_wf st pu hwf h1 h14, unlockG_mono st pu h1⟩
          simp only [unlockDb]
  | getGhost pid lvl =>
      exact ⟨st, get_ghost_store st pid lvl, hwf, progMono_rfl st⟩
  | upsertGhost p =>
      exact ⟨upsertG st p, rfl, wf_of_progress_eq (upsertG_progress st p) hwf,
        progMono_of_progress_eq (upsertG_progress st p)⟩
  | classify pid =>
      exact ⟨st, classification_store st pid, hwf, progMono_rfl st⟩

lemma runOps_invariant (ops : List Op) : ∀ st : Store, ProgressWF st →
    ∃ st', runOps (some st) ops = some st' ∧ ProgressWF st' ∧ ProgMono st st' := by
  induction ops with
  | nil => exact fun st hwf => ⟨st, rfl, hwf, progMono_rfl st⟩
  | cons op ops ih =>
      intro st hwf
      obtain ⟨st1, h1, hwf1, hm1⟩ := runOp_step st op hwf
      obtain ⟨st', h', hwf', hm'⟩ := ih st1 hwf1
      refine ⟨st', ?_, hwf', progMono_trans hm1 hm'⟩
      show runOps ((runOp (some st) op).2) ops = some st'
      rw [h1]
      exact h'

/-- C2: complete postcondition of reportWin.  Every call reports success; for
1 ≤ won_level ≤ 14 the resulting unlocked_upto is the maximum of the previous
value (default 1 when the record is created on the fly) and won_level + 1;
for won_level < 1 or won_level ≥ 15 the call is a no-op on the store. -/
theorem C2_reportWin_postcondition (db : Option Store) (st : Store) (pid : String) (w : Int) :
    (unlock_next db ⟨pid, w⟩).1 = some statusOk ∧
    (1 ≤ w → w ≤ 14 →
      ∃ st', (unlock_next (some st) ⟨pid, w⟩).2 = some st' ∧
        progressValue st' pid = some (max ((progressValue st pid).getD 1) (w + 1))) ∧
    ((w < 1 ∨ 15 ≤ w) → (unlock_next (some st) ⟨pid, w⟩).2 = some st) := by
  refine ⟨?_, ?_, ?_⟩
  · unfold unlock_next
    split
    · rfl
    · cases db with
      | none => rfl
      | some st0 => simp only [unlockDb]
  · intro h1 h14
    unfold unlock_next
    rw [if_neg (by show ¬(w < 1 ∨ w ≥ MAX_LEVELS); unfold MAX_LEVELS; omega)]
    refine ⟨unlockG st ⟨pid, w⟩, ?_, unlockG_progressValue_self st ⟨pid, w⟩ h1⟩
    simp only [unlockDb]
  · intro hout
    unfold unlock_next
    rw [if_pos (by show w < 1 ∨ w ≥ MAX_LEVELS; unfold MAX_LEVELS; omega)]

/-- Witness for C2 at the concrete input (p2, won_level 5) on the empty
store: the resulting unlocked_upto is max 1 (5+1) = 6. -/
theorem C2_reportWin_postcondition_witness :
    ∃ st', (unlock_next (some emptyStore) ⟨"p2", 5⟩).2 = some st' ∧
      progressValue st' "p2" = some 6 := by
  obtain ⟨st', h2, hval⟩ :=
    (C2_reportWin_postcondition (some emptyStore) emptyStore "p2" 5).2.1 (by omega) (by omega)
  have hnone : progressValue emptyStore "p2" = none := rfl
  rw [hnone] at hval
  simp only [Option.getD_none] at hval
  refine ⟨st', h2, ?_⟩
  rw [hval]
  congr 1

/-- C4: progress invariant.  Starting from any store whose progress records
satisfy the declared bounds 1 ≤ unlocked_upto ≤ 15, any sequence of API calls
preserves the bounds and never lowers any player's stored unlocked_upto; and
a stale win report (won_level below the stored value) leaves the whole store
unchanged. -/
theorem C4_progress_invariant (st : Store) (ops : List Op) (pid : String)
    (hwf : ProgressWF st) :
    (∀ st', runOps (some st) ops = some st' →
      ProgressWF st' ∧
      ∀ u, progressValue st pid = some u →
        ∃ u', progressValue st' pid = some u' ∧ u ≤ u') ∧
    (∀ (w u : Int), progressValue st pid = some u → w < u →
      (unlock_next (some st) ⟨pid, w⟩).2 = some st) := by
  constructor
  · intro st' hrun
    obtain ⟨st'', h2, hwf'', hm⟩ := runOps_invariant ops st hwf
    rw [hrun] at h2
    injection h2 with he
    subst he
    exact ⟨hwf'', fun u hu => hm pid u hu⟩
  · intro w u hu hw
    unfold progressValue at hu
    cases hfind : st.progress.find? (fun d => d.player_id == pid) with
    | none => rw [hfind] at hu; cases hu
    | some r =>
        rw [hfind] at hu
        injection hu with hu
        have hu' : r.unlocked_upto = u := hu
        unfold unlock_next
        split
        · rfl
        · show (unlockDb (some st) ⟨pid, w⟩).2 = some st
          simp only [unlockDb]
          rw [unlockG_of_stale st ⟨pid, w⟩ hfind (by show w < r.unlocked_upto; omega)]


/-- Witness for C4 at a concrete run: from the empty store, the spec's §8
scenario reportWin(p2, 5) then reportWin(p2, 3) keeps all progress records in
bounds, and the stale second report leaves the intermediate store unchanged. -/
theorem C4_progress_invariant_witness :
    (∀ st', runOps (some emptyStore)
        [Op.unlockNext ⟨"p2", 5⟩, Op.unlockNext ⟨"p2", 3⟩] = some st' →
      ProgressWF st' ∧
      ∀ u, progressValue emptyStore "p2" = some u →
        ∃ u', progressValue st' "p2" = some u' ∧ u ≤ u') ∧
    (unlock_next (some ⟨[], [⟨"p2", 6⟩], []⟩) ⟨"p2", 3⟩).2 = some ⟨[], [⟨"p2", 6⟩], []⟩ := by
  constructor
  · exact (C4_progress_invariant emptyStore
      [Op.unlockNext ⟨"p2", 5⟩, Op.unlockNext ⟨"p2", 3⟩] "p2" (by decide)).1
  · exact (C4_progress_invariant ⟨[], [⟨"p2", 6⟩], []⟩ [] "p2" (by decide)).2 3 6 rfl (by omega)

/-- C3: classification aggregation.  With the store unconfigured or no stored
ghost records for the player the tier is Bronze; otherwise the returned tier
is determined by the arithmetic mean of time_ms over the player's stored
records: Gold below 5500, Silver in [5500, 7500), Bronze at or above 7500. -/
theorem C3_classification_tiers (st : Store) (pid : String) :
    (classification none pid).1 = some [("tier", JVal.s "Bronze")] ∧
    ((st.ghosts.filter (fun d => d.player_id == pid)).isEmpty = true →
      classification (some st) pid = (some [("tier", JVal.s "Bronze")], some st)) ∧
    ((st.ghosts.filter (fun d => d.player_id == pid)).isEmpty = false →
      classification (some st) pid =
        (some [("tier", JVal.s (if specMean st pid < 5500 then "Gold"
          else if specMean st pid < 7500 then "Silver" else "Bronze"))], some st)) := by
  refine ⟨rfl, ?_, ?_⟩
  · intro h
    simp only [classification, if_pos h]
  · intro h
    have hne : st.ghosts.filter (fun d => d.player_id == pid) ≠ [] := by
      intro hnil
      rw [hnil] at h
      cases h
    have hlen : 1 ≤ (st.ghosts.filter (fun d => d.player_id == pid)).length :=
      Nat.one_le_iff_ne_zero.mpr (fun h0 => hne (List.length_eq_zero.mp h0))
    have hlenQ : (1 : ℚ) ≤ ((st.ghosts.filter (fun d => d.player_id == pid)).length : ℚ) := by
      exact_mod_cast hlen
    have hmean : avgTime (st.ghosts.filter (fun d => d.player_id == pid)) = specMean st pid := by
      unfold avgTime specMean
      rw [max_eq_right hlenQ]
      congr 1
      push_cast
      rw [List.map_map]
      rfl
    have hcond : ¬((st.ghosts.filter (fun d => d.player_id == pid)).isEmpty = true) := by
      rw [h]
      exact Bool.false_ne_true
    simp only [classification, if_neg hcond]
    rw [hmean]
    unfold classifyTier
    rfl

/-- Witness for C3: a single stored record of 6500 ms for player p yields the
Silver tier. -/
theorem C3_classification_tiers_witness :
    classification (some ⟨[], [], [⟨"p", 1, 6500, []⟩]⟩) "p" =
      (some [("tier", JVal.s "Silver")], some ⟨[], [], [⟨"p", 1, 6500, []⟩]⟩) := by
  have h := (C3_classification_tiers ⟨[], [], [⟨"p", 1, 6500, []⟩]⟩ "p").2.2 rfl
  rw [h]
  have hm : specMean ⟨[], [], [⟨"p", 1, 6500, []⟩]⟩ "p" = 6500 := by
    unfold specMean
    norm_num
  rw [hm]
  norm_num

/-- C5: for a key with no stored ghost record, GET ghost returns the generic
fallback — time_ms 8000 and exactly ten "tap" segments, segment i spanning
[700·i, 700·i + 120] — and leaves the store unchanged (never persisted). -/
theorem C5_ghost_fallback (st : Store) (pid : String) (lvl : Int)
    (h : ghostFor st pid lvl = none) :
    ∃ r, get_ghost (some st) pid lvl = (some r, some st) ∧
      respGet r "time_ms" = some (JVal.i 8000) ∧
      ∃ segs, respGet r "inputs" = some (JVal.segs segs) ∧
        segs.length = 10 ∧
        (∀ s ∈ segs, s.kind = "tap") ∧
        ∀ i : Fin segs.length,
          segs.get i = ⟨700 * ((i : Nat) : Int), 700 * ((i : Nat) : Int) + 120, "tap"⟩ := by
  unfold ghostFor at h
  refine ⟨genericGhost pid lvl, ?_, rfl,
    (List.range 10).map (fun i => ⟨(i : Int) * 700, (i : Int) * 700 + 120, "tap"⟩),
    rfl, rfl, ?_, ?_⟩
  · simp only [get_ghost, h]
  · decide
  · decide

/-- Witness for C5 at the empty store and key (p, 4). -/
theorem C5_ghost_fallback_witness :
    ∃ r, get_ghost (some emptyStore) "p" 4 = (some r, some emptyStore) ∧
      respGet r "time_ms" = some (JVal.i 8000) ∧
      ∃ segs, respGet r "inputs" = some (JVal.segs segs) ∧
        segs.length = 10 ∧
        (∀ s ∈ segs, s.kind = "tap") ∧
        ∀ i : Fin segs.length,
          segs.get i = ⟨700 * ((i : Nat) : Int), 700 * ((i : Nat) : Int) + 120, "tap"⟩ :=
  C5_ghost_fallback emptyStore "p" 4 rfl

/-- C6 (failing input): POST /api/ghost with level 0 and time_ms -100 — both
outside the bounds schemas.GhostRecord declares — is accepted: the endpoint
answers ok and stores the out-of-range record instead of rejecting it. -/
theorem C6_invalid_ghost_accepted :
    upsert_ghost (some emptyStore) ⟨"p", 0, -100, []⟩ =
      (some statusOk, some ⟨[], [], [⟨"p", 0, -100, []⟩]⟩) := by
  rfl

/-- C7 (failing input): a settings update with language "fr" — outside the
{en, es} enum of schemas.PlayerSettings — is accepted, stored and echoed back
instead of being rejected. -/
theorem C7_enum_not_validated :
    update_settings (some emptyStore) "p" ⟨some true, some true, some "fr"⟩ =
      (some [("player_id", JVal.s "p"), ("volume", JVal.b true), ("vibration", JVal.b true),
             ("language", JVal.s "fr")],
       some ⟨[⟨"p", some true, some true, some "fr"⟩], [], []⟩) := by
  rfl

/-- C8 (failing input): a partial update {language := en} for a player with no
stored settings record creates a document holding only the supplied field —
no defaults for volume/vibration — and the response projection fails (the
KeyError, modelled as a `none` response) instead of returning a full record. -/
theorem C8_partial_create_drops_defaults :
    update_settings (some emptyStore) "p" ⟨none, none, some "en"⟩ =
      (none, some ⟨[⟨"p", none, none, some "en"⟩], [], []⟩) := by
  rfl

/-- C9 counterexample: in degraded mode the GET settings response is exactly
the three-field default object and contains no "player_id" key, refuting the
claimed response shape {player_id, volume, vibration, language}. -/
theorem C9_degraded_settings_counterexample :
    (get_settings none "p").1 =
      some [("volume", JVal.b true), ("vibration", JVal.b true), ("language", JVal.s "es")] ∧
    ∀ r, (get_settings none "p").1 = some r → respGet r "player_id" = none := by
  refine ⟨rfl, ?_⟩
  intro r hr
  injection hr with h
  rw [← h]
  rfl

/-- C9 amended: with the store unconfigured every endpoint still responds
successfully (no store appears), and GET settings responds with the fixed
default {volume, vibration, language} — without player_id. -/
theorem C9_degraded_defaults (op : Op) (pid : String) :
    (runOp none op).2 = none ∧ (∃ r, (runOp none op).1 = some r) ∧
    (get_settings none pid).1 =
      some [("volume", JVal.b true), ("vibration", JVal.b true), ("language", JVal.s "es")] ∧
    respGet [("volume", JVal.b true), ("vibration", JVal.b true), ("language", JVal.s "es")]
      "player_id" = none := by
  refine ⟨?_, ?_, rfl, rfl⟩
  · cases op with
    | getSettings pid => rfl
    | updateSettings pid payload => rfl
    | getLevels => rfl
    | getProgress pid => rfl
    | unlockNext pu =>
        show (unlock_next none pu).2 = none
        unfold unlock_next
        split
        · rfl
        · rfl
    | getGhost pid lvl => rfl
    | upsertGhost p => rfl
    | classify pid => rfl
  · cases op with
    | getSettings pid => exact ⟨_, rfl⟩
    | updateSettings pid payload => exact ⟨_, rfl⟩
    | getLevels => exact ⟨_, rfl⟩
    | getProgress pid => exact ⟨_, rfl⟩
    | unlockNext pu =>
        show ∃ r, (unlock_next none pu).1 = some r
        unfold unlock_next
        split
        · exact ⟨statusOk, rfl⟩
        · exact ⟨statusOk, rfl⟩
    | getGhost pid lvl => exact ⟨_, rfl⟩
    | upsertGhost p => exact ⟨_, rfl⟩
    | classify pid => exact ⟨_, rfl⟩

/-- C10: POST /api/progress/unlock and POST /api/ghost answer exactly
{"status": "ok"} for every request body and every store state, so the
response never reveals whether anything was written. -/
theorem C10_constant_ok (db : Option Store) (pu : ProgressUpdate) (gp : GhostUpsert) :
    (unlock_next db pu).1 = some statusOk ∧ (upsert_ghost db gp).1 = some statusOk := by
  constructor
  · unfold unlock_next
    split
    · rfl
    · cases db with
      | none => rfl
      | some st => rfl
  · cases db with
    | none => rfl
    | some st => rfl

end ShadowSprint
